import Mathlib

/-!
# Verification of the traefik-github-auth credential-validation core

A shallow embedding of the token-result cache (internal/cache/cache.go) and
the validation orchestrator (internal/validator/validator.go) of the
traefik-github-auth service, together with proofs of the specified
properties.

Modelling conventions:
* `time.Time` and `time.Duration` are modelled as `Int` (nanoseconds);
  the Go expression `a.After(b)` is `b < a`.
* The Go map `map[string]Entry` is modelled as an association list with
  the map's (unordered) iteration order fixed to list order; `Nodup` on
  the keys is the map's key-uniqueness invariant.
* Fallible provider calls return `Except GhErr`.
* OpenTelemetry counters, gauges, spans and logging are pure observers and
  are not modelled.
-/

namespace GithubAuth

/-- Errors surfaced by the GitHub client (internal/github sentinel errors
`ErrUnauthorized`, `ErrNotOrgMember`, `ErrRateLimited`, plus any other
transport or decoding failure carried as `other`). -/
inductive GhErr where
  | unauthorized
  | notOrgMember
  | rateLimited
  | other (msg : String)
  deriving DecidableEq, Repr

/-- Errors surfaced by the validator (its sentinel errors `ErrUnauthorized`,
`ErrNotOrgMember`, `ErrClassicPAT`, `ErrRateLimited`, plus wrapped provider
failures produced with a context string, e.g. "getting user: ..."). -/
inductive VError where
  | unauthorized
  | notOrgMember
  | classicPAT
  | rateLimited
  | internal (context : String) (cause : GhErr)
  deriving DecidableEq, Repr

/-- `validator.ValidationResult`: outcome of a successful token validation. -/
structure ValidationResult where
  login : String
  id : Int
  email : String
  org : String
  teams : List String
  deriving DecidableEq, Repr

instance : Inhabited ValidationResult := ⟨⟨"", 0, "", "", []⟩⟩

/-- `cache.Entry`: a cached entry.  `err` is `some _` for negative entries
(the Go field `Err error` being non-nil). -/
structure Entry where
  result : ValidationResult
  err : Option VError
  expiresAt : Int
  deriving DecidableEq, Repr

/-- `cache.hashToken`: the source computes the hex-encoded SHA-256 digest of
the raw token (library `crypto/sha256`).  The model represents the digest by
an injective tagging of the token: equal tokens give equal fingerprints and
distinct tokens give distinct fingerprints (collisions are negligible by
design, and the digest library is external to this repository). -/
def hashToken (token : String) : String :=
  "sha256:" ++ token

/-- `cache.Cache`: TTL plus size bound plus the entry map (association list,
see the modelling conventions).  The mutex, stop channel and metric
instruments are not part of the functional state. -/
structure Cache where
  ttl : Int
  maxSize : Int
  entries : List (String × Entry)
  deriving DecidableEq, Repr

/-- `cache.New` (functional part): a fresh cache with no entries. -/
def Cache.new (ttl maxSize : Int) : Cache :=
  ⟨ttl, maxSize, []⟩

/-- The Go map assignment `entries[key] = e`: replace the binding of an
existing key in place, otherwise add the binding. -/
def mapAssign (l : List (String × Entry)) (key : String) (e : Entry) :
    List (String × Entry) :=
  if (l.lookup key).isSome then
    l.map fun p => if p.1 = key then (key, e) else p
  else
    l ++ [(key, e)]

/-- `cache.Cache.evictOldest` scan: the pair with the earliest `ExpiresAt`,
the earliest-iterated pair winning ties (the Go loop replaces the candidate
only on a strict `Before`). -/
def oldestPair : List (String × Entry) → Option (String × Entry)
  | [] => none
  | p :: rest =>
      some (rest.foldl (fun acc q => if q.2.expiresAt < acc.2.expiresAt then q else acc) p)

/-- `cache.Cache.evictOldest`: delete the key holding the entry with the
earliest `ExpiresAt`; no-op on an empty map. -/
def evictOldest (l : List (String × Entry)) : List (String × Entry) :=
  match oldestPair l with
  | none => l
  | some p => l.eraseP fun q => q.1 == p.1

/-- `cache.Cache.Get` at time `now`: returns `(result, err, found)`.
Miss when the TTL is zero, the key is absent, or `now` is strictly after
the entry's `ExpiresAt` (Go: `time.Now().After(entry.ExpiresAt)`). -/
def Cache.get (c : Cache) (now : Int) (token : String) :
    ValidationResult × Option VError × Bool :=
  if c.ttl = 0 then (default, none, false)
  else
    match c.entries.lookup (hashToken token) with
    | none => (default, none, false)
    | some entry =>
        if entry.expiresAt < now then (default, none, false)
        else (entry.result, entry.err, true)

/-- `cache.Cache.Set` at time `now`: no-op when the TTL is zero; evicts the
oldest entry when the key is new and the cache is at capacity
(`maxSize > 0 && len(entries) >= maxSize`); then stores the entry with
`ExpiresAt = now + ttl`. -/
def Cache.set (c : Cache) (now : Int) (token : String)
    (result : ValidationResult) (err : Option VError) : Cache :=
  if c.ttl = 0 then c
  else if c.entries.lookup (hashToken token) = none
      ∧ 0 < c.maxSize ∧ c.maxSize ≤ (c.entries.length : Int) then
    { c with entries :=
        mapAssign (evictOldest c.entries) (hashToken token) ⟨result, err, now + c.ttl⟩ }
  else
    { c with entries :=
        mapAssign c.entries (hashToken token) ⟨result, err, now + c.ttl⟩ }

/-- `cache.Cache.Delete`: remove the binding of the token's fingerprint. -/
def Cache.delete (c : Cache) (token : String) : Cache :=
  { c with entries := c.entries.eraseP fun p => p.1 == hashToken token }

/-- `cache.Cache.removeExpired` at time `now` (body of each background sweep
tick): delete every entry with `now.After(entry.ExpiresAt)`,
i.e. keep exactly the entries with `expiresAt` not strictly before `now`. -/
def Cache.removeExpired (c : Cache) (now : Int) : Cache :=
  { c with entries := c.entries.filter fun p => !(p.2.expiresAt < now) }

/-- `cache.Cache.Len`: number of entries currently stored. -/
def Cache.len (c : Cache) : Nat :=
  c.entries.length

/-- `github.User` (profile fields consumed by the validator). -/
structure User where
  login : String
  id : Int
  email : String
  deriving DecidableEq, Repr

/-- `github.Organization`. -/
structure Organization where
  login : String
  deriving DecidableEq, Repr

/-- `github.Team`. -/
structure Team where
  slug : String
  organization : Organization
  deriving DecidableEq, Repr

/-- The `github.Client` port: `GetUser` returns the user and whether the
token is a classic PAT; `CheckOrgMembership` takes token, org and username;
`ListUserTeams` takes token and org. -/
structure Provider where
  getUser : String → Except GhErr (User × Bool)
  checkOrgMembership : String → String → String → Except GhErr Unit
  listUserTeams : String → String → Except GhErr (List Team)

/-- `strings.EqualFold`, modelled as case-insensitive equality via
lowercasing both sides. -/
def eqFold (a b : String) : Bool :=
  a.toLower == b.toLower

/-- The org filter inside `github.HTTPClient.ListUserTeams`: keep exactly
the teams whose organization login matches `org` case-insensitively, in
fetch order.  `allTeams` is the concatenation of the fetched pages. -/
def filterTeamsToOrg (allTeams : List Team) (org : String) : List Team :=
  allTeams.filter fun t => eqFold t.organization.login org

/-- `validator.Validator`: the GitHub client, the configured organization
and the classic-PAT policy (logger/telemetry omitted). -/
structure Validator where
  github : Provider
  org : String
  rejectClassicPATs : Bool

/-- The cache-miss path of `validator.Validator.Validate`: the three
provider calls with the source's error classification, caching the
`Unauthorized` outcome negatively and the success positively. -/
def Validator.validateMiss (v : Validator) (c : Cache) (now : Int)
    (token : String) : (Option ValidationResult × Option VError) × Cache :=
  match v.github.getUser token with
  | .error ghErr =>
      match ghErr with
      | .rateLimited => ((none, some .rateLimited), c)
      | .unauthorized =>
          ((none, some .unauthorized), c.set now token default (some .unauthorized))
      | e => ((none, some (.internal "getting user" e)), c)
  | .ok (user, isClassicPAT) =>
      if v.rejectClassicPATs && isClassicPAT then
        ((none, some .classicPAT), c)
      else
        match v.github.checkOrgMembership token v.org user.login with
        | .error .rateLimited => ((none, some .rateLimited), c)
        | .error .notOrgMember => ((none, some .notOrgMember), c)
        | .error e => ((none, some (.internal "checking org membership" e)), c)
        | .ok _ =>
            match v.github.listUserTeams token v.org with
            | .error .rateLimited => ((none, some .rateLimited), c)
            | .error e => ((none, some (.internal "listing user teams" e)), c)
            | .ok teams =>
                let teamSlugs := teams.map (·.slug)
                let result : ValidationResult :=
                  { login := user.login, id := user.id, email := user.email,
                    org := v.org, teams := teamSlugs }
                ((some result, none), c.set now token result none)

/-- `validator.Validator.Validate` at time `now`: cache lookup first — a
negative hit returns the cached error, a positive hit returns the cached
result, both without touching the provider — otherwise the miss path. -/
def Validator.validate (v : Validator) (c : Cache) (now : Int)
    (token : String) : (Option ValidationResult × Option VError) × Cache :=
  if (c.get now token).2.2 then
    match (c.get now token).2.1 with
    | some e => ((none, some e), c)
    | none => ((some (c.get now token).1, none), c)
  else
    v.validateMiss c now token

/-- A mutating cache operation, for stating invariants over arbitrary
operation sequences: `Set`, `Delete`, or a background sweep tick. -/
inductive CacheOp where
  | set (now : Int) (token : String) (result : ValidationResult) (err : Option VError)
  | del (token : String)
  | sweep (now : Int)

/-- Run one mutating cache operation. -/
def applyOp (c : Cache) : CacheOp → Cache
  | .set now token result err => c.set now token result err
  | .del token => c.delete token
  | .sweep now => c.removeExpired now

/-- Run a sequence of mutating cache operations, oldest first. -/
def applyOps (c : Cache) (ops : List CacheOp) : Cache :=
  ops.foldl applyOp c

/-- Insert a positive entry for each listed token, in order. -/
def insertAll (c : Cache) (now : Int) (r : ValidationResult)
    (tokens : List String) : Cache :=
  tokens.foldl (fun acc t => acc.set now t r none) c

/-! ## Lemmas about the map-assignment model -/

theorem lookup_map_replace (l : List (String × Entry)) (key : String) (e : Entry) :
    (l.map fun p => if p.1 = key then (key, e) else p).lookup key
      = if (l.lookup key).isSome then some e else none := by
  induction l with
  | nil => simp
  | cons p t ih =>
      obtain ⟨k, v⟩ := p
      by_cases h : k = key
      · simp [h, List.lookup_cons]
      · have h2 : (key == k) = false := by simp [Ne.symm h]
        simp only [List.map_cons, h, if_false, List.lookup_cons, h2]
        exact ih

theorem lookup_mapAssign_self (l : List (String × Entry)) (key : String) (e : Entry) :
    (mapAssign l key e).lookup key = some e := by
  unfold mapAssign
  by_cases h : (l.lookup key).isSome
  · simp only [h, if_true, lookup_map_replace, h]
  · rw [if_neg h, List.lookup_append]
    rw [Option.not_isSome_iff_eq_none] at h
    simp [h]

theorem lookup_mapAssign_ne (l : List (String × Entry)) {k key : String}
    (e : Entry) (hne : k ≠ key) :
    (mapAssign l key e).lookup k = l.lookup k := by
  unfold mapAssign
  by_cases h : (l.lookup key).isSome
  · rw [if_pos h]
    clear h
    induction l with
    | nil => simp
    | cons p t ih =>
        obtain ⟨k1, v⟩ := p
        by_cases h1 : k1 = key
        · have h2 : (k == key) = false := by simp [hne]
          have h3 : (k == k1) = false := by simp [h1, hne]
          simp only [List.map_cons, h1, if_true, List.lookup_cons, h2, h3]
          exact ih
        · have h4 : k1 ≠ key := h1
          by_cases h5 : k = k1
          · simp only [List.map_cons, h1, if_false, List.lookup_cons, h5,
              beq_self_eq_true]
          · have h6 : (k == k1) = false := by simp [h5]
            simp only [List.map_cons, h1, if_false, List.lookup_cons, h6]
            exact ih
  · rw [if_neg h, List.lookup_append]
    have h6 : ([(key, e)].lookup k) = none := by
      rw [List.lookup_eq_none_iff]
      simp [hne]
    rw [h6]
    cases l.lookup k <;> rfl

theorem length_mapAssign_isSome (l : List (String × Entry)) (key : String)
    (e : Entry) (h : (l.lookup key).isSome) :
    (mapAssign l key e).length = l.length := by
  unfold mapAssign
  rw [if_pos h, List.length_map]

theorem length_mapAssign_none (l : List (String × Entry)) (key : String)
    (e : Entry) (h : l.lookup key = none) :
    (mapAssign l key e).length = l.length + 1 := by
  unfold mapAssign
  rw [if_neg (by simp [h]), List.length_append, List.length_cons, List.length_nil]

/-! ## Lemmas about eviction -/

theorem foldl_oldest_mem (rest : List (String × Entry)) (acc : String × Entry) :
    rest.foldl (fun acc q => if q.2.expiresAt < acc.2.expiresAt then q else acc) acc
      ∈ acc :: rest := by
  induction rest generalizing acc with
  | nil => simp
  | cons q t ih =>
      simp only [List.foldl_cons]
      by_cases hlt : q.2.expiresAt < acc.2.expiresAt
      · rw [if_pos hlt]
        rcases List.mem_cons.mp (ih q) with h | h
        · rw [h]
          simp
        · simp [List.mem_cons_of_mem, h]
      · rw [if_neg hlt]
        rcases List.mem_cons.mp (ih acc) with h | h
        · rw [h]
          simp
        · simp [List.mem_cons_of_mem, h]

theorem foldl_oldest_min (rest : List (String × Entry)) (acc : String × Entry) :
    (rest.foldl (fun acc q => if q.2.expiresAt < acc.2.expiresAt then q else acc) acc).2.expiresAt
        ≤ acc.2.expiresAt
      ∧ ∀ q ∈ rest,
        (rest.foldl (fun acc q => if q.2.expiresAt < acc.2.expiresAt then q else acc) acc).2.expiresAt
          ≤ q.2.expiresAt := by
  induction rest generalizing acc with
  | nil => exact ⟨le_refl _, by simp⟩
  | cons q t ih =>
      simp only [List.foldl_cons]
      by_cases hlt : q.2.expiresAt < acc.2.expiresAt
      · rw [if_pos hlt]
        obtain ⟨ih1, ih2⟩ := ih q
        refine ⟨le_trans ih1 (le_of_lt hlt), ?_⟩
        intro p hp
        rcases List.mem_cons.mp hp with rfl | hp
        · exact ih1
        · exact ih2 p hp
      · rw [if_neg hlt]
        push_neg at hlt
        obtain ⟨ih1, ih2⟩ := ih acc
        refine ⟨ih1, ?_⟩
        intro p hp
        rcases List.mem_cons.mp hp with rfl | hp
        · exact le_trans ih1 hlt
        · exact ih2 p hp

theorem oldestPair_mem {l : List (String × Entry)} {p : String × Entry}
    (h : oldestPair l = some p) : p ∈ l := by
  cases l with
  | nil => simp [oldestPair] at h
  | cons q t =>
      simp only [oldestPair, Option.some.injEq] at h
      subst h
      exact foldl_oldest_mem t q

theorem oldestPair_min {l : List (String × Entry)} {p : String × Entry}
    (h : oldestPair l = some p) :
    ∀ q ∈ l, p.2.expiresAt ≤ q.2.expiresAt := by
  cases l with
  | nil => simp [oldestPair] at h
  | cons q t =>
      simp only [oldestPair, Option.some.injEq] at h
      subst h
      intro r hr
      obtain ⟨h1, h2⟩ := foldl_oldest_min t q
      rcases List.mem_cons.mp hr with rfl | hr
      · exact h1
      · exact h2 r hr

theorem oldestPair_eq_some {l : List (String × Entry)} (h : l ≠ []) :
    ∃ p, oldestPair l = some p := by
  cases l with
  | nil => exact absurd rfl h
  | cons q t => exact ⟨_, rfl⟩

theorem evictOldest_sublist (l : List (String × Entry)) :
    List.Sublist (evictOldest l) l := by
  unfold evictOldest
  cases hop : oldestPair l with
  | none => exact List.Sublist.refl l
  | some p => exact List.eraseP_sublist l

theorem length_evictOldest {l : List (String × Entry)} (h : l ≠ []) :
    (evictOldest l).length + 1 = l.length := by
  obtain ⟨p, hp⟩ := oldestPair_eq_some h
  unfold evictOldest
  rw [hp]
  exact List.length_eraseP_add_one (oldestPair_mem hp) (by simp)

/-! ## Lemmas about lookup through a filter -/

theorem lookup_filter_pos {l : List (String × Entry)} {k : String} {v : Entry}
    {p : String × Entry → Bool}
    (h : l.lookup k = some v) (hp : p (k, v) = true) :
    (l.filter p).lookup k = some v := by
  induction l with
  | nil => simp at h
  | cons q t ih =>
      obtain ⟨k1, v1⟩ := q
      by_cases h1 : k = k1
      · subst h1
        rw [List.lookup_cons_self] at h
        obtain rfl : v1 = v := by injection h
        rw [List.filter_cons, if_pos hp]
        exact List.lookup_cons_self
      · have h2 : (k == k1) = false := by simp [h1]
        rw [List.lookup_cons, h2] at h
        rw [List.filter_cons]
        by_cases h3 : p (k1, v1) = true
        · rw [if_pos h3, List.lookup_cons, h2]
          exact ih h
        · rw [if_neg h3]
          exact ih h

theorem lookup_filter_neg {l : List (String × Entry)} {k : String} {v : Entry}
    {p : String × Entry → Bool}
    (hnd : (l.map Prod.fst).Nodup)
    (h : l.lookup k = some v) (hp : p (k, v) = false) :
    (l.filter p).lookup k = none := by
  induction l with
  | nil => simp at h
  | cons q t ih =>
      obtain ⟨k1, v1⟩ := q
      rw [List.map_cons, List.nodup_cons] at hnd
      obtain ⟨hk1, hnd⟩ := hnd
      by_cases h1 : k = k1
      · subst h1
        rw [List.lookup_cons_self] at h
        obtain rfl : v1 = v := by injection h
        rw [List.filter_cons, if_neg (by simp [hp])]
        have ht : t.lookup k = none := by
          rw [List.lookup_eq_none_iff]
          intro q hq
          simp only [bne_iff_ne, ne_eq]
          intro hkq
          exact hk1 (by
            rw [hkq]
            exact List.mem_map.mpr ⟨q, hq, rfl⟩)
        exact (List.filter_sublist t).lookup_eq_none ht
      · have h2 : (k == k1) = false := by simp [h1]
        rw [List.lookup_cons, h2] at h
        rw [List.filter_cons]
        by_cases h3 : p (k1, v1) = true
        · rw [if_pos h3, List.lookup_cons, h2]
          exact ih hnd h
        · rw [if_neg h3]
          exact ih hnd h

/-! ## Basic facts about the cache operations -/

theorem get_hit {c : Cache} {now : Int} {token : String} {e : Entry}
    (h0 : c.ttl ≠ 0)
    (hl : c.entries.lookup (hashToken token) = some e)
    (h2 : ¬ e.expiresAt < now) :
    c.get now token = (e.result, e.err, true) := by
  simp only [Cache.get, if_neg h0, hl, if_neg h2]

theorem get_miss_expired {c : Cache} {now : Int} {token : String} {e : Entry}
    (h0 : c.ttl ≠ 0)
    (hl : c.entries.lookup (hashToken token) = some e)
    (h2 : e.expiresAt < now) :
    c.get now token = (default, none, false) := by
  simp only [Cache.get, if_neg h0, hl, if_pos h2]

theorem get_miss_absent {c : Cache} {now : Int} {token : String}
    (h0 : c.ttl ≠ 0)
    (hl : c.entries.lookup (hashToken token) = none) :
    c.get now token = (default, none, false) := by
  simp only [Cache.get, if_neg h0, hl]

theorem set_ttl (c : Cache) (now : Int) (token : String)
    (r : ValidationResult) (err : Option VError) :
    (c.set now token r err).ttl = c.ttl := by
  unfold Cache.set
  split
  · rfl
  · split <;> rfl

theorem set_maxSize (c : Cache) (now : Int) (token : String)
    (r : ValidationResult) (err : Option VError) :
    (c.set now token r err).maxSize = c.maxSize := by
  unfold Cache.set
  split
  · rfl
  · split <;> rfl

theorem removeExpired_ttl (c : Cache) (now : Int) :
    (c.removeExpired now).ttl = c.ttl := rfl

theorem set_entries_evict (c : Cache) (now : Int) (token : String)
    (r : ValidationResult) (err : Option VError)
    (h0 : c.ttl ≠ 0)
    (hnew : c.entries.lookup (hashToken token) = none)
    (hmax : 0 < c.maxSize) (hfull : c.maxSize ≤ (c.entries.length : Int)) :
    (c.set now token r err).entries
      = mapAssign (evictOldest c.entries) (hashToken token) ⟨r, err, now + c.ttl⟩ := by
  unfold Cache.set
  rw [if_neg h0, if_pos ⟨hnew, hmax, hfull⟩]

theorem set_entries_plain (c : Cache) (now : Int) (token : String)
    (r : ValidationResult) (err : Option VError)
    (h0 : c.ttl ≠ 0)
    (h1 : ¬ (c.entries.lookup (hashToken token) = none
      ∧ 0 < c.maxSize ∧ c.maxSize ≤ (c.entries.length : Int))) :
    (c.set now token r err).entries
      = mapAssign c.entries (hashToken token) ⟨r, err, now + c.ttl⟩ := by
  unfold Cache.set
  rw [if_neg h0, if_neg h1]

theorem lookup_set_self (c : Cache) (now : Int) (token : String)
    (r : ValidationResult) (err : Option VError) (h0 : c.ttl ≠ 0) :
    (c.set now token r err).entries.lookup (hashToken token)
      = some ⟨r, err, now + c.ttl⟩ := by
  unfold Cache.set
  rw [if_neg h0]
  split
  · exact lookup_mapAssign_self _ _ _
  · exact lookup_mapAssign_self _ _ _

theorem removeExpired_entries (c : Cache) (now : Int) :
    (c.removeExpired now).entries
      = c.entries.filter (fun p => !(p.2.expiresAt < now)) := rfl

/-! ## Claimed properties of the cache -/

/-- C1: for every cache with positive TTL and every stored entry whose
`ExpiresAt` has passed (`expiresAt < now`), `Get` reports a miss
(`found = false`), and it still reports a miss after a background sweep has
run at any time — lazy expiry is independent of sweep timing. -/
theorem get_misses_expired_entry (c : Cache) (now : Int) (token : String)
    (e : Entry)
    (httl : 0 < c.ttl)
    (hnd : (c.entries.map Prod.fst).Nodup)
    (hlook : c.entries.lookup (hashToken token) = some e)
    (hexp : e.expiresAt < now) :
    ((c.get now token).2.2 = false)
    ∧ ∀ t : Int, (((c.removeExpired t).get now token).2.2 = false) := by
  have h0 : c.ttl ≠ 0 := ne_of_gt httl
  have h0s : ∀ t : Int, (c.removeExpired t).ttl ≠ 0 := fun t => by
    rw [removeExpired_ttl]; exact h0
  constructor
  · rw [get_miss_expired h0 hlook hexp]
  · intro t
    by_cases hk : (fun p : String × Entry => !(p.2.expiresAt < t)) (hashToken token, e) = true
    · have hsl : (c.removeExpired t).entries.lookup (hashToken token) = some e := by
        rw [removeExpired_entries]
        exact lookup_filter_pos hlook hk
      rw [get_miss_expired (h0s t) hsl hexp]
    · have hk2 : (fun p : String × Entry => !(p.2.expiresAt < t)) (hashToken token, e) = false := by
        simpa using hk
      have hsl : (c.removeExpired t).entries.lookup (hashToken token) = none := by
        rw [removeExpired_entries]
        exact lookup_filter_neg hnd hlook hk2
      rw [get_miss_absent (h0s t) hsl]

/-- C1 witness: a cache with TTL 100 holding an entry that expired at time 5;
at time 6 the entry is a miss, with or without an intervening sweep. -/
theorem get_misses_expired_entry_witness :
    ((((⟨100, 0, [(hashToken "tok", ⟨default, none, 5⟩)]⟩ : Cache).get 6 "tok").2.2 = false)
      ∧ ∀ t : Int,
        ((((⟨100, 0, [(hashToken "tok", ⟨default, none, 5⟩)]⟩ : Cache).removeExpired t).get
            6 "tok").2.2 = false)) :=
  get_misses_expired_entry _ 6 "tok" ⟨default, none, 5⟩
    (by decide) (by simp) (by rfl) (by decide)

/-- C6: for every cache with positive TTL, `Set(t, o)` followed by `Get(t)`
at any time not past `now + ttl` (in particular immediately) returns the
stored outcome with `found = true`. -/
theorem set_get_roundtrip (c : Cache) (now now2 : Int) (token : String)
    (r : ValidationResult) (err : Option VError)
    (httl : 0 < c.ttl) (hfresh : now2 ≤ now + c.ttl) :
    (c.set now token r err).get now2 token = (r, err, true) := by
  have h0 : c.ttl ≠ 0 := ne_of_gt httl
  have hl := lookup_set_self c now token r err h0
  have httl2 : (c.set now token r err).ttl ≠ 0 := by
    rw [set_ttl]; exact h0
  exact get_hit httl2 hl (not_lt.mpr hfresh)

/-- C6 witness: the spec scenario — storing a positive outcome for "tokA"
and reading it back immediately yields the same outcome as a hit. -/
theorem set_get_roundtrip_witness :
    ((Cache.new 100 2).set 0 "tokA" ⟨"userA", 1, "", "org", []⟩ none).get 0 "tokA"
      = (⟨"userA", 1, "", "org", []⟩, none, true) :=
  set_get_roundtrip (Cache.new 100 2) 0 0 "tokA" ⟨"userA", 1, "", "org", []⟩ none
    (by decide) (by decide)

/-- C7: for every cache with positive TTL, `Set` on an already-present key
replaces that entry wholesale, keeps `Len` unchanged, and leaves every
other key's binding unchanged (no eviction). -/
theorem set_existing_key_frame (c : Cache) (now : Int) (token : String)
    (r : ValidationResult) (err : Option VError) (e0 : Entry)
    (httl : 0 < c.ttl)
    (hl : c.entries.lookup (hashToken token) = some e0) :
    ((c.set now token r err).len = c.len)
    ∧ ((c.set now token r err).entries.lookup (hashToken token)
        = some ⟨r, err, now + c.ttl⟩)
    ∧ ∀ k, k ≠ hashToken token →
        (c.set now token r err).entries.lookup k = c.entries.lookup k := by
  have h0 : c.ttl ≠ 0 := ne_of_gt httl
  have hcond : ¬ (c.entries.lookup (hashToken token) = none
      ∧ 0 < c.maxSize ∧ c.maxSize ≤ (c.entries.length : Int)) := by
    intro h
    rw [hl] at h
    exact absurd h.1 (by simp)
  have he := set_entries_plain c now token r err h0 hcond
  refine ⟨?_, ?_, ?_⟩
  · show (c.set now token r err).entries.length = c.entries.length
    rw [he]
    exact length_mapAssign_isSome _ _ _ (by rw [hl]; rfl)
  · rw [he]
    exact lookup_mapAssign_self _ _ _
  · intro k hk
    rw [he]
    exact lookup_mapAssign_ne _ _ hk

/-- C7 witness: overwriting the single stored key keeps the length at 1,
stores the new entry, and leaves a different key absent as before. -/
theorem set_existing_key_frame_witness :
    (((⟨100, 1, [(hashToken "t", ⟨default, none, 50⟩)]⟩ : Cache).set 7 "t"
        default (some .unauthorized)).len
      = (⟨100, 1, [(hashToken "t", ⟨default, none, 50⟩)]⟩ : Cache).len)
    ∧ (((⟨100, 1, [(hashToken "t", ⟨default, none, 50⟩)]⟩ : Cache).set 7 "t"
        default (some .unauthorized)).entries.lookup (hashToken "t")
      = some ⟨default, some .unauthorized, 7 + 100⟩)
    ∧ ∀ k, k ≠ hashToken "t" →
        ((⟨100, 1, [(hashToken "t", ⟨default, none, 50⟩)]⟩ : Cache).set 7 "t"
          default (some .unauthorized)).entries.lookup k
        = (⟨100, 1, [(hashToken "t", ⟨default, none, 50⟩)]⟩ : Cache).entries.lookup k :=
  set_existing_key_frame _ 7 "t" default (some .unauthorized) ⟨default, none, 50⟩
    (by decide) (by rfl)

/-- C10: expiry is strict at the boundary — an entry whose `ExpiresAt`
equals the current time is still a `Get` hit and is retained by the sweep;
more generally any entry with `now ≤ expiresAt` is a hit and is retained. -/
theorem expiry_boundary_strict (c : Cache) (now : Int) (token : String)
    (e : Entry)
    (httl : 0 < c.ttl)
    (hl : c.entries.lookup (hashToken token) = some e) :
    (e.expiresAt = now →
        c.get now token = (e.result, e.err, true)
        ∧ (c.removeExpired now).entries.lookup (hashToken token) = some e)
    ∧ (now ≤ e.expiresAt →
        c.get now token = (e.result, e.err, true)
        ∧ (c.removeExpired now).entries.lookup (hashToken token) = some e) := by
  have h0 : c.ttl ≠ 0 := ne_of_gt httl
  have main : now ≤ e.expiresAt →
      c.get now token = (e.result, e.err, true)
      ∧ (c.removeExpired now).entries.lookup (hashToken token) = some e := by
    intro hle
    refine ⟨get_hit h0 hl (not_lt.mpr hle), ?_⟩
    rw [removeExpired_entries]
    exact lookup_filter_pos hl (by simp [not_lt.mpr hle])
  exact ⟨fun heq => main (le_of_eq heq.symm), main⟩

/-- C10 witness: an entry expiring exactly at time 7 is still a hit at
time 7 and survives the sweep at time 7. -/
theorem expiry_boundary_strict_witness :
    (((7 : Int) = 7 →
        (⟨100, 0, [(hashToken "t", ⟨default, none, 7⟩)]⟩ : Cache).get 7 "t"
          = (default, none, true)
        ∧ ((⟨100, 0, [(hashToken "t", ⟨default, none, 7⟩)]⟩ : Cache).removeExpired 7).entries.lookup
            (hashToken "t") = some ⟨default, none, 7⟩)
      ∧ ((7 : Int) ≤ 7 →
        (⟨100, 0, [(hashToken "t", ⟨default, none, 7⟩)]⟩ : Cache).get 7 "t"
          = (default, none, true)
        ∧ ((⟨100, 0, [(hashToken "t", ⟨default, none, 7⟩)]⟩ : Cache).removeExpired 7).entries.lookup
            (hashToken "t") = some ⟨default, none, 7⟩)) :=
  expiry_boundary_strict _ 7 "t" ⟨default, none, 7⟩ (by decide) (by rfl)

theorem lookup_none_mem_ne {l : List (String × Entry)} {k : String}
    (h : l.lookup k = none) : ∀ q ∈ l, k ≠ q.1 := by
  rw [List.lookup_eq_none_iff] at h
  intro q hq
  simpa using h q hq

theorem eraseP_key_eq_erase {l : List (String × Entry)}
    (hnd : (l.map Prod.fst).Nodup) {p : String × Entry} (hp : p ∈ l) :
    l.eraseP (fun q => q.1 == p.1) = l.erase p := by
  induction l with
  | nil => simp at hp
  | cons a t ih =>
      rw [List.map_cons, List.nodup_cons] at hnd
      obtain ⟨ha, hnd⟩ := hnd
      by_cases hap : a = p
      · subst hap
        rw [List.eraseP_cons, List.erase_cons_head]
        simp
      · have hpt : p ∈ t := by
          rcases List.mem_cons.mp hp with h | h
          · exact absurd h.symm hap
          · exact h
        have hkey : (a.1 == p.1) = false := by
          simp only [beq_eq_false_iff_ne, ne_eq]
          intro hk
          exact ha (hk ▸ List.mem_map.mpr ⟨p, hpt, rfl⟩)
        have hab : (a == p) = false := by
          rw [beq_eq_false_iff_ne]
          exact hap
        rw [List.eraseP_cons, hkey, List.erase_cons, hab, ih hnd hpt]
        simp

/-- C5: for a cache with positive TTL and `maxSize > 0`, `Set` with a new
key at capacity removes exactly one entry — one with the earliest
`ExpiresAt` among all current entries — before appending the new entry,
and below capacity no entry is removed. -/
theorem set_at_capacity_evicts_earliest (c : Cache) (now : Int)
    (token : String) (r : ValidationResult) (err : Option VError)
    (httl : 0 < c.ttl) (hmax : 0 < c.maxSize)
    (hnd : (c.entries.map Prod.fst).Nodup)
    (hnew : c.entries.lookup (hashToken token) = none) :
    ((c.maxSize ≤ (c.entries.length : Int)) →
      ∃ p : String × Entry, p ∈ c.entries
        ∧ (∀ q ∈ c.entries, p.2.expiresAt ≤ q.2.expiresAt)
        ∧ (c.set now token r err).entries
            = c.entries.erase p ++ [(hashToken token, ⟨r, err, now + c.ttl⟩)]
        ∧ (c.set now token r err).len = c.len)
    ∧ (((c.entries.length : Int) < c.maxSize) →
      (c.set now token r err).entries
        = c.entries ++ [(hashToken token, ⟨r, err, now + c.ttl⟩)]) := by
  have h0 : c.ttl ≠ 0 := ne_of_gt httl
  constructor
  · intro hfull
    have hne : c.entries ≠ [] := by
      intro hnil
      rw [hnil] at hfull
      simp at hfull
      omega
    obtain ⟨p, hp⟩ := oldestPair_eq_some hne
    have hpm := oldestPair_mem hp
    have hkeyabs : (evictOldest c.entries).lookup (hashToken token) = none :=
      (evictOldest_sublist c.entries).lookup_eq_none hnew
    have hev : evictOldest c.entries = c.entries.erase p := by
      unfold evictOldest
      rw [hp]
      exact eraseP_key_eq_erase hnd hpm
    have hse := set_entries_evict c now token r err h0 hnew hmax hfull
    rw [hev] at hse hkeyabs
    refine ⟨p, hpm, oldestPair_min hp, ?_, ?_⟩
    · rw [hse]
      unfold mapAssign
      rw [if_neg (by simp [hkeyabs])]
    · show (c.set now token r err).entries.length = c.entries.length
      rw [hse]
      rw [length_mapAssign_none _ _ _ hkeyabs, List.length_erase_of_mem hpm]
      have hpos : 0 < c.entries.length := List.length_pos.mpr hne
      omega
  · intro hbelow
    have hcond : ¬ (c.entries.lookup (hashToken token) = none
        ∧ 0 < c.maxSize ∧ c.maxSize ≤ (c.entries.length : Int)) := by
      intro h
      exact absurd h.2.2 (not_le.mpr hbelow)
    rw [set_entries_plain c now token r err h0 hcond]
    unfold mapAssign
    rw [if_neg (by simp [hnew])]

/-- C5 witness: the spec scenario — maxSize 2, entries for "a" (expiry 10)
and "b" (expiry 20); setting new key "c" evicts the earliest entry and
keeps the length at 2, while a one-entry cache below capacity only
appends. -/
theorem set_at_capacity_evicts_earliest_witness :
    (((2 : Int) ≤ ((⟨100, 2, [(hashToken "a", ⟨default, none, 10⟩),
          (hashToken "b", ⟨default, none, 20⟩)]⟩ : Cache).entries.length : Int)) →
      ∃ p : String × Entry,
        p ∈ (⟨100, 2, [(hashToken "a", ⟨default, none, 10⟩),
          (hashToken "b", ⟨default, none, 20⟩)]⟩ : Cache).entries
        ∧ (∀ q ∈ (⟨100, 2, [(hashToken "a", ⟨default, none, 10⟩),
            (hashToken "b", ⟨default, none, 20⟩)]⟩ : Cache).entries,
            p.2.expiresAt ≤ q.2.expiresAt)
        ∧ ((⟨100, 2, [(hashToken "a", ⟨default, none, 10⟩),
            (hashToken "b", ⟨default, none, 20⟩)]⟩ : Cache).set 30 "c" default none).entries
            = (⟨100, 2, [(hashToken "a", ⟨default, none, 10⟩),
              (hashToken "b", ⟨default, none, 20⟩)]⟩ : Cache).entries.erase p
              ++ [(hashToken "c", ⟨default, none, 30 + 100⟩)]
        ∧ ((⟨100, 2, [(hashToken "a", ⟨default, none, 10⟩),
            (hashToken "b", ⟨default, none, 20⟩)]⟩ : Cache).set 30 "c" default none).len
            = (⟨100, 2, [(hashToken "a", ⟨default, none, 10⟩),
              (hashToken "b", ⟨default, none, 20⟩)]⟩ : Cache).len)
    ∧ ((((⟨100, 2, [(hashToken "a", ⟨default, none, 10⟩),
          (hashToken "b", ⟨default, none, 20⟩)]⟩ : Cache).entries.length : Int) < 2) →
      ((⟨100, 2, [(hashToken "a", ⟨default, none, 10⟩),
          (hashToken "b", ⟨default, none, 20⟩)]⟩ : Cache).set 30 "c" default none).entries
        = (⟨100, 2, [(hashToken "a", ⟨default, none, 10⟩),
            (hashToken "b", ⟨default, none, 20⟩)]⟩ : Cache).entries
          ++ [(hashToken "c", ⟨default, none, 30 + 100⟩)]) :=
  set_at_capacity_evicts_earliest _ 30 "c" default none
    (by decide) (by decide) (by decide) (by rfl)

/-- C9 counterexample: at a sweep tick at time 5, an entry with
`ExpiresAt = 5` satisfies `ExpiresAt ≤ now` yet is not removed — the
sweep only removes entries with `ExpiresAt` strictly before `now`. -/
theorem sweep_keeps_boundary_entry :
    ((⟨100, 0, [(hashToken "t", ⟨default, none, 5⟩)]⟩ : Cache).removeExpired 5).entries
      = [(hashToken "t", ⟨default, none, 5⟩)]
    ∧ ((5 : Int) ≤ 5) := by
  constructor
  · rfl
  · decide

/-- C9 (amended): each sweep tick removes exactly the entries whose
`ExpiresAt` is strictly before `now`: an entry is retained by the tick if
and only if it was present and `now ≤ ExpiresAt` (so nothing still in the
future — nor exactly at `now` — is removed). -/
theorem sweep_removes_strictly_expired (c : Cache) (now : Int) :
    ∀ (k : String) (e : Entry),
      (k, e) ∈ (c.removeExpired now).entries
        ↔ ((k, e) ∈ c.entries ∧ now ≤ e.expiresAt) := by
  intro k e
  rw [removeExpired_entries, List.mem_filter]
  simp [not_lt]

/-! ## Size-bound lemmas -/

theorem delete_ttl (c : Cache) (token : String) :
    (c.delete token).ttl = c.ttl := rfl

theorem delete_maxSize (c : Cache) (token : String) :
    (c.delete token).maxSize = c.maxSize := rfl

theorem removeExpired_maxSize (c : Cache) (now : Int) :
    (c.removeExpired now).maxSize = c.maxSize := rfl

theorem entries_nonempty_of_full {c : Cache}
    (hmax : 0 < c.maxSize) (hfull : c.maxSize ≤ (c.entries.length : Int)) :
    c.entries ≠ [] := by
  intro hnil
  rw [hnil] at hfull
  simp at hfull
  omega

theorem length_set_new_full (c : Cache) (now : Int) (token : String)
    (r : ValidationResult) (err : Option VError)
    (h0 : c.ttl ≠ 0)
    (hnew : c.entries.lookup (hashToken token) = none)
    (hmax : 0 < c.maxSize) (hfull : c.maxSize ≤ (c.entries.length : Int)) :
    (c.set now token r err).entries.length = c.entries.length := by
  have hne : c.entries ≠ [] := entries_nonempty_of_full hmax hfull
  have hkeyabs : (evictOldest c.entries).lookup (hashToken token) = none :=
    (evictOldest_sublist c.entries).lookup_eq_none hnew
  rw [set_entries_evict c now token r err h0 hnew hmax hfull,
    length_mapAssign_none _ _ _ hkeyabs, length_evictOldest hne]

theorem length_set_new_space (c : Cache) (now : Int) (token : String)
    (r : ValidationResult) (err : Option VError)
    (h0 : c.ttl ≠ 0)
    (hnew : c.entries.lookup (hashToken token) = none)
    (hnofit : ¬ (0 < c.maxSize ∧ c.maxSize ≤ (c.entries.length : Int))) :
    (c.set now token r err).entries.length = c.entries.length + 1 := by
  have hcond : ¬ (c.entries.lookup (hashToken token) = none
      ∧ 0 < c.maxSize ∧ c.maxSize ≤ (c.entries.length : Int)) := by
    intro h
    exact hnofit h.2
  rw [set_entries_plain c now token r err h0 hcond,
    length_mapAssign_none _ _ _ hnew]

theorem lookup_set_preserves_none (c : Cache) (now : Int) (token : String)
    (r : ValidationResult) (err : Option VError) (k : String)
    (hk : k ≠ hashToken token)
    (h : c.entries.lookup k = none) :
    (c.set now token r err).entries.lookup k = none := by
  unfold Cache.set
  split
  · exact h
  · split
    · show (mapAssign (evictOldest c.entries) (hashToken token) _).lookup k = none
      rw [lookup_mapAssign_ne _ _ hk]
      exact (evictOldest_sublist c.entries).lookup_eq_none h
    · show (mapAssign c.entries (hashToken token) _).lookup k = none
      rw [lookup_mapAssign_ne _ _ hk]
      exact h

theorem length_set_le (c : Cache) (now : Int) (token : String)
    (r : ValidationResult) (err : Option VError)
    (hmax : 0 < c.maxSize) (hlen : (c.entries.length : Int) ≤ c.maxSize) :
    ((c.set now token r err).entries.length : Int) ≤ c.maxSize := by
  by_cases h0 : c.ttl = 0
  · unfold Cache.set
    rw [if_pos h0]
    exact hlen
  · cases hex : c.entries.lookup (hashToken token) with
    | some e =>
        have hcond : ¬ (c.entries.lookup (hashToken token) = none
            ∧ 0 < c.maxSize ∧ c.maxSize ≤ (c.entries.length : Int)) := by
          intro h
          rw [hex] at h
          exact absurd h.1 (by simp)
        rw [set_entries_plain c now token r err h0 hcond,
          length_mapAssign_isSome _ _ _ (by rw [hex]; rfl)]
        exact hlen
    | none =>
        by_cases hfull : c.maxSize ≤ (c.entries.length : Int)
        · rw [length_set_new_full c now token r err h0 hex hmax hfull]
          exact hlen
        · rw [length_set_new_space c now token r err h0 hex
            (fun h => hfull h.2)]
          push_cast
          omega

theorem length_delete_le (c : Cache) (token : String) :
    (c.delete token).entries.length ≤ c.entries.length :=
  (List.eraseP_sublist c.entries).length_le

theorem length_removeExpired_le (c : Cache) (now : Int) :
    (c.removeExpired now).entries.length ≤ c.entries.length :=
  (List.filter_sublist c.entries).length_le

theorem applyOp_maxSize (c : Cache) (op : CacheOp) :
    (applyOp c op).maxSize = c.maxSize := by
  cases op with
  | set now token result err => exact set_maxSize c now token result err
  | del token => rfl
  | sweep now => rfl

theorem applyOp_length_le (c : Cache) (op : CacheOp)
    (hmax : 0 < c.maxSize) (hlen : (c.entries.length : Int) ≤ c.maxSize) :
    ((applyOp c op).entries.length : Int) ≤ c.maxSize := by
  cases op with
  | set now token result err => exact length_set_le c now token result err hmax hlen
  | del token =>
      calc ((c.delete token).entries.length : Int)
          ≤ (c.entries.length : Int) := by
            exact_mod_cast length_delete_le c token
        _ ≤ c.maxSize := hlen
  | sweep now =>
      calc ((c.removeExpired now).entries.length : Int)
          ≤ (c.entries.length : Int) := by
            exact_mod_cast length_removeExpired_le c now
        _ ≤ c.maxSize := hlen

theorem applyOps_length_le (ops : List CacheOp) :
    ∀ c : Cache, 0 < c.maxSize → (c.entries.length : Int) ≤ c.maxSize →
      ((applyOps c ops).entries.length : Int) ≤ c.maxSize := by
  induction ops with
  | nil => exact fun c _ hlen => hlen
  | cons op ops ih =>
      intro c hmax hlen
      show ((applyOps (applyOp c op) ops).entries.length : Int) ≤ c.maxSize
      rw [show c.maxSize = (applyOp c op).maxSize from (applyOp_maxSize c op).symm]
      exact ih (applyOp c op)
        (by rw [applyOp_maxSize]; exact hmax)
        (by rw [applyOp_maxSize]; exact applyOp_length_le c op hmax hlen)

theorem insertAll_length (now : Int) (r : ValidationResult) :
    ∀ (tokens : List String) (c : Cache), c.ttl ≠ 0 → 0 < c.maxSize →
      (tokens.map hashToken).Nodup →
      (∀ t ∈ tokens, c.entries.lookup (hashToken t) = none) →
      (c.entries.length : Int) ≤ c.maxSize →
      ((insertAll c now r tokens).entries.length : Int)
        = min ((c.entries.length : Int) + tokens.length) c.maxSize := by
  intro tokens
  induction tokens with
  | nil =>
      intro c h0 hmax hnd habs hlen
      show ((c.entries.length : Int)) = min ((c.entries.length : Int) + (0 : Nat)) c.maxSize
      rw [Nat.cast_zero, add_zero, min_eq_left hlen]
  | cons t ts ih =>
      intro c h0 hmax hnd habs hlen
      rw [List.map_cons, List.nodup_cons] at hnd
      obtain ⟨hth, hnd⟩ := hnd
      have htnew : c.entries.lookup (hashToken t) = none :=
        habs t (List.mem_cons_self t ts)
      have hstep : insertAll c now r (t :: ts)
          = insertAll (c.set now t r none) now r ts := rfl
      have h0b : (c.set now t r none).ttl ≠ 0 := by
        rw [set_ttl]; exact h0
      have hmaxb : 0 < (c.set now t r none).maxSize := by
        rw [set_maxSize]; exact hmax
      have habsb : ∀ u ∈ ts,
          (c.set now t r none).entries.lookup (hashToken u) = none := by
        intro u hu
        refine lookup_set_preserves_none c now t r none _ ?_
          (habs u (List.mem_cons_of_mem t hu))
        intro he
        exact hth (he ▸ List.mem_map.mpr ⟨u, hu, rfl⟩)
      by_cases hfull : c.maxSize ≤ (c.entries.length : Int)
      · have heq : (c.entries.length : Int) = c.maxSize := le_antisymm hlen hfull
        have hlen1 : (c.set now t r none).entries.length = c.entries.length :=
          length_set_new_full c now t r none h0 htnew hmax hfull
        have hres := ih (c.set now t r none) h0b hmaxb hnd habsb
          (by rw [set_maxSize, hlen1]; exact hlen)
        rw [hstep, hres, set_maxSize, hlen1, heq,
          min_eq_right (by omega : c.maxSize ≤ c.maxSize + (ts.length : Int)),
          min_eq_right (by
            omega : c.maxSize ≤ c.maxSize + ((t :: ts).length : Int))]
      · have hlt : (c.entries.length : Int) < c.maxSize := not_le.mp hfull
        have hlen1 : (c.set now t r none).entries.length = c.entries.length + 1 :=
          length_set_new_space c now t r none h0 htnew (fun h => hfull h.2)
        have hres := ih (c.set now t r none) h0b hmaxb hnd habsb
          (by
            rw [set_maxSize, hlen1]
            push_cast
            omega)
        rw [hstep, hres, set_maxSize, hlen1]
        push_cast
        rw [show ((c.entries.length : Int) + 1) + (ts.length : Int)
          = (c.entries.length : Int) + ((ts.length : Int) + 1) from by ring]
        congr 1

/-- C4: for every cache with `maxSize > 0` whose entry count is within the
bound, the entry count never exceeds `maxSize` after any sequence of `Set`,
`Delete` and sweep operations (evictions happen inside `Set`); in
particular, inserting `maxSize + 1` distinct new keys into a fresh cache
leaves `Len() == maxSize`. -/
theorem size_never_exceeds_maxSize (c : Cache) (ops : List CacheOp)
    (hmax : 0 < c.maxSize) (hlen : (c.entries.length : Int) ≤ c.maxSize) :
    (((applyOps c ops).entries.length : Int) ≤ c.maxSize)
    ∧ ∀ (ttl now : Int) (r : ValidationResult) (tokens : List String),
        0 < ttl →
        (tokens.map hashToken).Nodup →
        (tokens.length : Int) = c.maxSize + 1 →
        ((insertAll (Cache.new ttl c.maxSize) now r tokens).len : Int)
          = c.maxSize := by
  refine ⟨applyOps_length_le ops c hmax hlen, ?_⟩
  intro ttl now r tokens h0 hnd hcount
  have h := insertAll_length now r tokens (Cache.new ttl c.maxSize)
    (ne_of_gt h0) hmax hnd (fun t _ => rfl) (by
      show ((0 : Nat) : Int) ≤ c.maxSize
      omega)
  show ((insertAll (Cache.new ttl c.maxSize) now r tokens).entries.length : Int)
    = c.maxSize
  rw [h]
  show min ((((List.nil).length : Nat) : Int) + (tokens.length : Int)) c.maxSize
    = c.maxSize
  rw [hcount]
  simp

/-- C4 witness: a fresh cache with `maxSize = 2` stays within bound under a
concrete sequence of three inserts, a delete and a sweep, and the
`maxSize + 1` distinct-keys consequence holds for it. -/
theorem size_never_exceeds_maxSize_witness :
    ((((applyOps (Cache.new 100 2)
        [.set 0 "a" default none, .set 1 "b" default none,
         .set 2 "c" default none, .del "b", .sweep 500]).entries.length : Int)
      ≤ (Cache.new 100 2).maxSize)
    ∧ ∀ (ttl now : Int) (r : ValidationResult) (tokens : List String),
        0 < ttl →
        (tokens.map hashToken).Nodup →
        (tokens.length : Int) = (Cache.new 100 2).maxSize + 1 →
        ((insertAll (Cache.new ttl (Cache.new 100 2).maxSize) now r tokens).len : Int)
          = (Cache.new 100 2).maxSize) :=
  size_never_exceeds_maxSize (Cache.new 100 2)
    [.set 0 "a" default none, .set 1 "b" default none,
     .set 2 "c" default none, .del "b", .sweep 500]
    (by decide) (by decide)

/-! ## Lemmas about the orchestrator dispatch -/

theorem validate_of_miss (v : Validator) (c : Cache) (now : Int)
    (token : String) (h : (c.get now token).2.2 = false) :
    v.validate c now token = v.validateMiss c now token := by
  unfold Validator.validate
  rw [h]
  simp

theorem validate_of_negative_hit (v : Validator) (c : Cache) (now : Int)
    (token : String) (r0 : ValidationResult) (e : VError)
    (h : c.get now token = (r0, some e, true)) :
    v.validate c now token = ((none, some e), c) := by
  unfold Validator.validate
  rw [h]
  rfl

theorem validate_of_positive_hit (v : Validator) (c : Cache) (now : Int)
    (token : String) (r0 : ValidationResult)
    (h : c.get now token = (r0, none, true)) :
    v.validate c now token = ((some r0, none), c) := by
  unfold Validator.validate
  rw [h]
  rfl

/-! ## Claimed properties of the orchestrator -/

/-- C2: on a cache miss, whichever of the three provider calls returns the
rate-limited error, `Validate` returns `(nil, RateLimited)` and leaves the
cache exactly as it was — in particular no entry is created for the
token. -/
theorem rate_limited_not_cached (v : Validator) (c : Cache) (now : Int)
    (token : String)
    (hmiss : (c.get now token).2.2 = false) :
    (v.github.getUser token = .error .rateLimited →
      v.validate c now token = ((none, some .rateLimited), c))
    ∧ (∀ (u : User) (cp : Bool),
        v.github.getUser token = .ok (u, cp) →
        (v.rejectClassicPATs && cp) = false →
        v.github.checkOrgMembership token v.org u.login = .error .rateLimited →
        v.validate c now token = ((none, some .rateLimited), c))
    ∧ (∀ (u : User) (cp : Bool),
        v.github.getUser token = .ok (u, cp) →
        (v.rejectClassicPATs && cp) = false →
        v.github.checkOrgMembership token v.org u.login = .ok () →
        v.github.listUserTeams token v.org = .error .rateLimited →
        v.validate c now token = ((none, some .rateLimited), c)) := by
  rw [validate_of_miss v c now token hmiss]
  refine ⟨?_, ?_, ?_⟩
  · intro hgu
    simp [Validator.validateMiss, hgu]
  · intro u cp hgu hcp hcm
    simp [Validator.validateMiss, hgu, hcp, hcm]
  · intro u cp hgu hcp hcm hlt
    simp [Validator.validateMiss, hgu, hcp, hcm, hlt]

/-- C2 witness: three concrete validators over an empty cache, each hitting
the rate limit at a different step (identify, membership, teams); all
return `RateLimited` with the cache unchanged. -/
theorem rate_limited_not_cached_witness :
    ((⟨⟨fun _ => .error .rateLimited,
        fun _ _ _ => .error .rateLimited,
        fun _ _ => .error .rateLimited⟩, "acme", true⟩ : Validator).validate
        (Cache.new 100 10) 0 "tok"
      = ((none, some .rateLimited), Cache.new 100 10))
    ∧ ((⟨⟨fun _ => .ok (⟨"alice", 7, "alice@example.com"⟩, false),
        fun _ _ _ => .error .rateLimited,
        fun _ _ => .ok []⟩, "acme", true⟩ : Validator).validate
        (Cache.new 100 10) 0 "tok"
      = ((none, some .rateLimited), Cache.new 100 10))
    ∧ ((⟨⟨fun _ => .ok (⟨"alice", 7, "alice@example.com"⟩, false),
        fun _ _ _ => .ok (),
        fun _ _ => .error .rateLimited⟩, "acme", true⟩ : Validator).validate
        (Cache.new 100 10) 0 "tok"
      = ((none, some .rateLimited), Cache.new 100 10)) :=
  ⟨(rate_limited_not_cached _ (Cache.new 100 10) 0 "tok" (by rfl)).1 (by rfl),
   (rate_limited_not_cached _ (Cache.new 100 10) 0 "tok" (by rfl)).2.1
     ⟨"alice", 7, "alice@example.com"⟩ false (by rfl) (by rfl) (by rfl),
   (rate_limited_not_cached _ (Cache.new 100 10) 0 "tok" (by rfl)).2.2
     ⟨"alice", 7, "alice@example.com"⟩ false (by rfl) (by rfl) (by rfl) (by rfl)⟩

/-- C3: on a cache miss where the identify step reports `Unauthorized`,
`Validate` stores a negative entry for the token and returns
`(nil, Unauthorized)`; within the TTL a `Get` on that token is a negative
hit for `Unauthorized`, and a subsequent `Validate` — with any provider at
all, so without consulting the provider — answers `Unauthorized` from the
cache, leaving it unchanged. -/
theorem unauthorized_cached_negatively (v : Validator) (c : Cache)
    (now : Int) (token : String)
    (httl : 0 < c.ttl)
    (hmiss : (c.get now token).2.2 = false)
    (hgu : v.github.getUser token = .error .unauthorized) :
    (v.validate c now token
      = ((none, some .unauthorized),
         c.set now token default (some .unauthorized)))
    ∧ (∀ now2 : Int, now2 ≤ now + c.ttl →
        (c.set now token default (some .unauthorized)).get now2 token
          = (default, some .unauthorized, true))
    ∧ (∀ (v2 : Validator) (now2 : Int), now2 ≤ now + c.ttl →
        v2.validate (c.set now token default (some .unauthorized)) now2 token
          = ((none, some .unauthorized),
             c.set now token default (some .unauthorized))) := by
  have h0 : c.ttl ≠ 0 := ne_of_gt httl
  have hget : ∀ now2 : Int, now2 ≤ now + c.ttl →
      (c.set now token default (some .unauthorized)).get now2 token
        = (default, some .unauthorized, true) := by
    intro now2 hle
    have hl := lookup_set_self c now token default (some .unauthorized) h0
    have httl2 : (c.set now token default (some .unauthorized)).ttl ≠ 0 := by
      rw [set_ttl]; exact h0
    exact get_hit httl2 hl (not_lt.mpr hle)
  refine ⟨?_, hget, ?_⟩
  · rw [validate_of_miss v c now token hmiss]
    simp [Validator.validateMiss, hgu]
  · intro v2 now2 hle
    exact validate_of_negative_hit v2 _ now2 token default .unauthorized (hget now2 hle)

/-- C3 witness: an empty cache and a provider that rejects the token as
unauthorized; validation caches the denial, a `Get` within the TTL is a
negative hit, and any later validation answers from the cache. -/
theorem unauthorized_cached_negatively_witness :
    (((⟨⟨fun _ => .error .unauthorized,
        fun _ _ _ => .ok (),
        fun _ _ => .ok []⟩, "acme", true⟩ : Validator).validate
        (Cache.new 100 10) 0 "tok"
      = ((none, some .unauthorized),
         (Cache.new 100 10).set 0 "tok" default (some .unauthorized)))
    ∧ (∀ now2 : Int, now2 ≤ 0 + (Cache.new 100 10).ttl →
        ((Cache.new 100 10).set 0 "tok" default (some .unauthorized)).get now2 "tok"
          = (default, some .unauthorized, true))
    ∧ (∀ (v2 : Validator) (now2 : Int), now2 ≤ 0 + (Cache.new 100 10).ttl →
        v2.validate ((Cache.new 100 10).set 0 "tok" default (some .unauthorized)) now2 "tok"
          = ((none, some .unauthorized),
             (Cache.new 100 10).set 0 "tok" default (some .unauthorized)))) :=
  unauthorized_cached_negatively
    ⟨⟨fun _ => .error .unauthorized, fun _ _ _ => .ok (), fun _ _ => .ok []⟩,
      "acme", true⟩
    (Cache.new 100 10) 0 "tok" (by decide) (by rfl) (by rfl)

/-- C8: on a cache miss where all three provider calls succeed, `Validate`
returns an identity whose `Org` is the configured organization and whose
`Teams` is exactly the provider-returned team list — the fetched teams
filtered case-insensitively to the organization, in fetch order — mapped to
slugs, and stores that identity positively so that a `Get` within the TTL
returns it. -/
theorem success_identity_and_cached (v : Validator) (c : Cache) (now : Int)
    (token : String) (u : User) (cp : Bool) (allTeams : List Team)
    (httl : 0 < c.ttl)
    (hmiss : (c.get now token).2.2 = false)
    (hgu : v.github.getUser token = .ok (u, cp))
    (hcp : (v.rejectClassicPATs && cp) = false)
    (hcm : v.github.checkOrgMembership token v.org u.login = .ok ())
    (hlt : v.github.listUserTeams token v.org
      = .ok (filterTeamsToOrg allTeams v.org)) :
    (v.validate c now token
      = ((some ⟨u.login, u.id, u.email, v.org,
            (filterTeamsToOrg allTeams v.org).map (·.slug)⟩, none),
         c.set now token
           ⟨u.login, u.id, u.email, v.org,
             (filterTeamsToOrg allTeams v.org).map (·.slug)⟩ none))
    ∧ (∀ now2 : Int, now2 ≤ now + c.ttl →
        (c.set now token
          ⟨u.login, u.id, u.email, v.org,
            (filterTeamsToOrg allTeams v.org).map (·.slug)⟩ none).get now2 token
          = (⟨u.login, u.id, u.email, v.org,
              (filterTeamsToOrg allTeams v.org).map (·.slug)⟩, none, true)) := by
  have h0 : c.ttl ≠ 0 := ne_of_gt httl
  constructor
  · rw [validate_of_miss v c now token hmiss]
    simp [Validator.validateMiss, hgu, hcp, hcm, hlt]
  · intro now2 hle
    have hl := lookup_set_self c now token
      ⟨u.login, u.id, u.email, v.org,
        (filterTeamsToOrg allTeams v.org).map (·.slug)⟩ none h0
    have httl2 : (c.set now token
        ⟨u.login, u.id, u.email, v.org,
          (filterTeamsToOrg allTeams v.org).map (·.slug)⟩ none).ttl ≠ 0 := by
      rw [set_ttl]; exact h0
    exact get_hit httl2 hl (not_lt.mpr hle)

/-- C8 witness: the spec scenario — the provider returns the teams
"platform", "security", "sre" (org matched case-insensitively, an
out-of-org team dropped); the returned identity carries exactly those slugs
in order for org "acme", and the positive entry is retrievable. -/
theorem success_identity_and_cached_witness :
    (((⟨⟨fun _ => .ok (⟨"alice", 7, "alice@example.com"⟩, false),
        fun _ _ _ => .ok (),
        fun _ o => .ok (filterTeamsToOrg
          [⟨"platform", ⟨"Acme"⟩⟩, ⟨"security", ⟨"acme"⟩⟩,
           ⟨"sre", ⟨"ACME"⟩⟩, ⟨"other", ⟨"widgets"⟩⟩] o)⟩,
        "acme", true⟩ : Validator).validate (Cache.new 100 10) 0 "tok"
      = ((some ⟨"alice", 7, "alice@example.com", "acme",
            (filterTeamsToOrg
              [⟨"platform", ⟨"Acme"⟩⟩, ⟨"security", ⟨"acme"⟩⟩,
               ⟨"sre", ⟨"ACME"⟩⟩, ⟨"other", ⟨"widgets"⟩⟩] "acme").map (·.slug)⟩,
          none),
         (Cache.new 100 10).set 0 "tok"
           ⟨"alice", 7, "alice@example.com", "acme",
            (filterTeamsToOrg
              [⟨"platform", ⟨"Acme"⟩⟩, ⟨"security", ⟨"acme"⟩⟩,
               ⟨"sre", ⟨"ACME"⟩⟩, ⟨"other", ⟨"widgets"⟩⟩] "acme").map (·.slug)⟩
           none))
    ∧ (∀ now2 : Int, now2 ≤ 0 + (Cache.new 100 10).ttl →
        ((Cache.new 100 10).set 0 "tok"
          ⟨"alice", 7, "alice@example.com", "acme",
            (filterTeamsToOrg
              [⟨"platform", ⟨"Acme"⟩⟩, ⟨"security", ⟨"acme"⟩⟩,
               ⟨"sre", ⟨"ACME"⟩⟩, ⟨"other", ⟨"widgets"⟩⟩] "acme").map (·.slug)⟩
          none).get now2 "tok"
          = (⟨"alice", 7, "alice@example.com", "acme",
              (filterTeamsToOrg
                [⟨"platform", ⟨"Acme"⟩⟩, ⟨"security", ⟨"acme"⟩⟩,
                 ⟨"sre", ⟨"ACME"⟩⟩, ⟨"other", ⟨"widgets"⟩⟩] "acme").map (·.slug)⟩,
             none, true))) :=
  success_identity_and_cached
    ⟨⟨fun _ => .ok (⟨"alice", 7, "alice@example.com"⟩, false),
      fun _ _ _ => .ok (),
      fun _ o => .ok (filterTeamsToOrg
        [⟨"platform", ⟨"Acme"⟩⟩, ⟨"security", ⟨"acme"⟩⟩,
         ⟨"sre", ⟨"ACME"⟩⟩, ⟨"other", ⟨"widgets"⟩⟩] o)⟩,
      "acme", true⟩
    (Cache.new 100 10) 0 "tok" ⟨"alice", 7, "alice@example.com"⟩ false
    [⟨"platform", ⟨"Acme"⟩⟩, ⟨"security", ⟨"acme"⟩⟩,
     ⟨"sre", ⟨"ACME"⟩⟩, ⟨"other", ⟨"widgets"⟩⟩]
    (by decide) (by rfl) (by rfl) (by rfl) (by rfl) (by rfl)
